import Mathlib

/-!
Verification of the core logic of `zfsDiffReport.py` against its
natural-language specification.

The program is shallowly embedded: Python strings become `List Char`,
Python `bytes` become `List Nat` (each entry one byte), and code that can
raise an exception is modelled with `Option` (`none` = an exception
escapes).  Every definition mirrors the corresponding function of
`zfsDiffReport.py`; the names follow the source where Lean allows it.
-/

namespace ZfsDiff

/-- Python strings are modelled as lists of characters. -/
abbrev Str := List Char

/-- Characters on which Python's no-argument `str.split` splits
(the `str.isspace` set). -/
def pyIsSpace (c : Char) : Bool :=
  c.toNat ∈ [9, 10, 11, 12, 13, 28, 29, 30, 31, 32, 133, 160, 5760,
    8192, 8193, 8194, 8195, 8196, 8197, 8198, 8199, 8200, 8201, 8202,
    8232, 8233, 8239, 8287, 12288]

/-- Helper for `pyWsSplit`: accumulates the current word (reversed). -/
def wsSplitAux : List Char → List Char → List Str
  | [], acc => if acc.isEmpty then [] else [acc.reverse]
  | c :: cs, acc =>
    if pyIsSpace c then
      if acc.isEmpty then wsSplitAux cs [] else acc.reverse :: wsSplitAux cs []
    else wsSplitAux cs (c :: acc)

/-- Python `str.split()` with no argument: split on runs of whitespace,
discarding empty fields. -/
def pyWsSplit (s : Str) : List Str := wsSplitAux s []

/-- Characters Python `str.splitlines` treats as line boundaries. -/
def pyIsLineBreak (c : Char) : Bool :=
  c.toNat ∈ [10, 11, 12, 13, 28, 29, 30, 133, 8232, 8233]

/-- Helper for `pySplitlines`; `"\r\n"` counts as a single boundary. -/
def splitlinesAux : List Char → List Char → List Str
  | [], acc => if acc.isEmpty then [] else [acc.reverse]
  | '\r' :: '\n' :: cs, acc => acc.reverse :: splitlinesAux cs []
  | c :: cs, acc =>
    if pyIsLineBreak c then acc.reverse :: splitlinesAux cs []
    else splitlinesAux cs (c :: acc)

/-- Python `str.splitlines()`. -/
def pySplitlines (s : Str) : List Str := splitlinesAux s []

/-- Index of the first occurrence of `pat` in `s` (Python `str.find`
restricted to the case used here), `none` when `pat` does not occur. -/
def findSubstrIdx (pat : Str) : Str → Option Nat
  | [] => if pat.isEmpty then some 0 else none
  | c :: cs =>
    if pat.isPrefixOf (c :: cs) then some 0
    else (findSubstrIdx pat cs).map (· + 1)

/-- Python's `in` operator on strings: substring containment. -/
def pyIn (pat s : Str) : Bool := (findSubstrIdx pat s).isSome

/-- Occurrences found by `findSubstrIdx` really fit inside the string. -/
theorem findSubstrIdx_le (pat : Str) :
    ∀ s i, findSubstrIdx pat s = some i → i + pat.length ≤ s.length := by
  intro s
  induction s with
  | nil =>
    intro i h
    simp only [findSubstrIdx] at h
    by_cases hp : pat.isEmpty
    · simp [hp] at h
      simp [List.isEmpty_iff.mp hp, ← h]
    · simp [hp] at h
  | cons c cs ih =>
    intro i h
    simp only [findSubstrIdx] at h
    by_cases hp : pat.isPrefixOf (c :: cs)
    · simp [hp] at h
      have := List.IsPrefix.length_le (List.isPrefixOf_iff_prefix.mp hp)
      simpa [← h] using this
    · simp [hp] at h
      obtain ⟨j, hj, rfl⟩ := h
      have := ih j hj
      simp [List.length_cons]
      omega

/-- Python `str.split(sep)` (with a non-empty separator, the only way the
program calls it; an empty separator returns the string unsplit here,
mirroring the fact that the program never reaches that case). -/
def pySplit (sep : Str) (s : Str) : List Str :=
  if hsep : sep.isEmpty then [s]
  else
    match h : findSubstrIdx sep s with
    | none => [s]
    | some i => s.take i :: pySplit sep (s.drop (i + sep.length))
termination_by s.length
decreasing_by
  have hle := findSubstrIdx_le sep s i h
  have h1 : 1 ≤ sep.length := by
    cases sep with
    | nil => simp at hsep
    | cons a as => simp
  simp only [List.length_drop]
  omega

/-- Python `str.replace(old, new, 1)`: replace the first occurrence only. -/
def replaceFirst (s old new : Str) : Str :=
  match findSubstrIdx old s with
  | none => s
  | some i => s.take i ++ new ++ s.drop (i + old.length)

/-- Python `str.startswith`. -/
def startsWith (pre s : Str) : Bool := pre.isPrefixOf s

/-- Lexicographic (code-point) comparison, Python's `<` on strings. -/
def strLt : Str → Str → Bool
  | _, [] => false
  | [], _ :: _ => true
  | a :: as, b :: bs => if a < b then true else if b < a then false else strLt as bs

/-- Stable insertion used to model Python's stable `sorted`: an element is
inserted after all elements whose key is not greater. -/
def sortInsert (x : Str × Str) : List (Str × Str) → List (Str × Str)
  | [] => [x]
  | y :: ys => if strLt x.1 y.1 then x :: y :: ys else y :: sortInsert x ys

/-- Model of Python `sorted` on (key, value) pairs: stable, ascending by
key. -/
def pySortPairs (l : List (Str × Str)) : List (Str × Str) :=
  l.foldl (fun acc x => sortInsert x acc) []

/-!  ### getFilteredDifflines (lines 154-160 of zfsDiffReport.py) -/

/-- `getFilteredDifflines(difflines, excludes)`: when the exclude list is
truthy, keep only the lines containing none of the exclude keywords
(`not any(f in x for f in excludes)`).  Python's `None`/empty list both
map to the empty list here. -/
def getFilteredDifflines (difflines : List Str) (excludes : List Str) : List Str :=
  if excludes.isEmpty then difflines
  else difflines.filter (fun x => !(excludes.any (fun f => pyIn f x)))

/-!  ### getSnapshots (lines 93-134 of zfsDiffReport.py)

The external `zfs list -t snapshot -o name -s creation` invocation is an
external collaborator: its output, the creation-ordered (oldest first)
list of snapshot names, is a parameter `zfssnapshots`. -/

/-- Python `list.index`: position of the first occurrence, `none` models
the `ValueError` raised when the element is absent. -/
def pyIndex (l : List Str) (x : Str) : Option Nat :=
  match l with
  | [] => none
  | y :: ys => if y = x then some 0 else (pyIndex ys x).map (· + 1)

/-- The candidate list `tmpZfsSnapshots` built by `getSnapshots`
(lines 101-116): filter by the first keyword; when a second keyword is
given and the first filter was non-empty, re-filter the full list by the
second keyword excluding names that contain the previously selected
snapshot, then append that snapshot. -/
def candidateSnapshots (zfssnapshots : List Str) (snapshotkeys : List Str) : List Str :=
  let tmp1 := match snapshotkeys with
    | [] => zfssnapshots
    | k1 :: _ => zfssnapshots.filter (fun x => pyIn k1 x)
  match snapshotkeys, tmp1.getLast? with
  | _ :: k2 :: _, some lastF =>
    (zfssnapshots.filter (fun x => pyIn k2 x && !(pyIn lastF x))) ++ [lastF]
  | _, _ => tmp1

/-- `getSnapshots` (lines 118-134): returns `(enoughSnapshots, snapshot1,
snapshot2)`.  `tmp[-2]`/`tmp[-1]` are the last two candidates; when there
are fewer than two candidates the result is `(False, "", "")`.  The final
block swaps the pair so that `snapshot1` comes first in creation order,
using `list.index` (whose `ValueError` is modelled by `none`). -/
def getSnapshots (zfssnapshots : List Str) (snapshotkeys : List Str) :
    Option (Bool × Str × Str) :=
  match (candidateSnapshots zfssnapshots snapshotkeys).dropLast.getLast?,
        (candidateSnapshots zfssnapshots snapshotkeys).getLast? with
  | some s1, some s2 =>
    match pyIndex zfssnapshots s1, pyIndex zfssnapshots s2 with
    | some i1, some i2 =>
      if i1 > i2 then some (true, s2, s1) else some (true, s1, s2)
    | _, _ => none
  | _, _ => some (false, [], [])

/-!  ### decode_octal (lines 78-90 of zfsDiffReport.py)

`zfs diff` escapes non-printable bytes as `\0NNN` (a backslash, a literal
`0`, then three digits read as an octal number).  `decode_octal` finds all
matches of the regex `\\0\d{3}` in the original blob and, for each match
in order, replaces every occurrence of that five-byte string in the
current blob by the single byte the octal digits denote. -/

/-- ASCII digit test, the regex class `\d` on bytes. -/
def isDigitB (b : Nat) : Bool := 48 ≤ b && b ≤ 57

/-- `re.findall(b'\\0\d{3}', s)`: left-to-right, non-overlapping scan for
the five-byte pattern backslash, `'0'`, three digits; a match advances
the scan past itself, anything else advances it by one byte. -/
def findall : List Nat → List (List Nat)
  | b :: r1 :: r2 :: r3 :: r4 :: r5 =>
    if b == 92 && r1 == 48 && isDigitB r2 && isDigitB r3 && isDigitB r4
    then [92, 48, r2, r3, r4] :: findall r5
    else findall (r1 :: r2 :: r3 :: r4 :: r5)
  | _ :: rest => findall rest
  | [] => []

/-- Python `bytes.replace(old, new)`: replace every non-overlapping
occurrence, scanning left to right.  (The program never calls it with an
empty `old`.) -/
def bytesReplace (old new : List Nat) : List Nat → List Nat
  | [] => []
  | c :: cs =>
    if !old.isEmpty && old.isPrefixOf (c :: cs)
    then new ++ bytesReplace old new ((c :: cs).drop old.length)
    else c :: bytesReplace old new cs
termination_by s => s.length
decreasing_by
  · rename_i h
    simp only [Bool.and_eq_true, Bool.not_eq_true', List.isEmpty_eq_false,
      ne_eq] at h
    have : 1 ≤ old.length := by
      cases old with
      | nil => simp at h
      | cons a as => simp
    simp only [List.length_drop, List.length_cons]
    omega
  · simp

/-- `int(myoct, 8)`: parse a byte string of octal digits; `none` models
the `ValueError` on an empty string or a non-octal digit. -/
def octParse : List Nat → Option Nat
  | [] => none
  | ds => go ds 0
where
  go : List Nat → Nat → Option Nat
    | [], acc => some acc
    | d :: ds, acc =>
      if 48 ≤ d && d ≤ 55 then go ds (acc * 8 + (d - 48)) else none

/-- The body of the loop in `decode_octal`: `myoct =
oct_char.replace(b'\0', b'')`, `myint = int(myoct, 8)`, `encoded =
encoded.replace(oct_char, bytes([myint]))`.  `bytes([myint])` raises
`ValueError` unless `myint` is a byte (below 256), modelled by `none`. -/
def decodeStep (encoded oct_char : List Nat) : Option (List Nat) :=
  (octParse (bytesReplace [92, 48] [] oct_char)).bind
    (fun myint =>
      if myint < 256 then some (bytesReplace oct_char [myint] encoded)
      else none)

/-- `decode_octal(encoded)` (lines 78-90): fold the replacement loop over
the matches found in the original blob; `none` models an uncaught
`ValueError`, from `int` on a non-octal digit or from `bytes` on a value
above 255. -/
def decode_octal (encoded : List Nat) : Option (List Nat) :=
  (findall encoded).foldlM decodeStep encoded

/-!  #### A token view of raw blobs, for stating what `decode_octal`
decodes.  A blob in general position is a sequence of literal bytes and
`\0NNN` escapes; `render` lays the tokens out as the raw byte blob and
`tokByte` is the byte each token stands for after decoding. -/

/-- A raw-blob token: a literal byte, or an escape `\` `0` `d1 d2 d3`. -/
inductive OTok : Type
  | lit (b : Nat) : OTok
  | esc (d1 d2 d3 : Nat) : OTok
deriving DecidableEq

/-- The bytes of one token in the raw blob. -/
def renderTok : OTok → List Nat
  | .lit b => [b]
  | .esc d1 d2 d3 => [92, 48, d1, d2, d3]

/-- The raw blob of a token sequence. -/
def render (ts : List OTok) : List Nat := (ts.map renderTok).flatten

/-- The byte denoted by the three octal digits of an escape. -/
def escVal (d1 d2 d3 : Nat) : Nat :=
  (d1 - 48) * 64 + (d2 - 48) * 8 + (d3 - 48)

/-- The byte a token decodes to. -/
def tokByte : OTok → Nat
  | .lit b => b
  | .esc d1 d2 d3 => escVal d1 d2 d3

/-- An octal digit character. -/
def isOctB (d : Nat) : Bool := 48 ≤ d && d ≤ 55

/-- General position of a token: a literal byte is not the backslash (a
backslash in the blob starts an escape), an escape has octal digits,
denotes a single byte (a value below 256 — a larger value makes
`bytes([myint])` raise), and does not denote the backslash byte itself. -/
def wfTok : OTok → Bool
  | .lit b => b != 92
  | .esc d1 d2 d3 => isOctB d1 && isOctB d2 && isOctB d3 &&
      (escVal d1 d2 d3 != 92) && decide (escVal d1 d2 d3 < 256)

/-- The rendering in which the escapes whose five-byte strings are in `P`
have already been replaced by their bytes. -/
def renderTokP (P : List (List Nat)) : OTok → List Nat
  | .lit b => [b]
  | .esc d1 d2 d3 =>
    if [92, 48, d1, d2, d3] ∈ P then [escVal d1 d2 d3]
    else [92, 48, d1, d2, d3]

/-- `render` after the replacements for the escape strings in `P`. -/
def renderP (P : List (List Nat)) (ts : List OTok) : List Nat :=
  (ts.map (renderTokP P)).flatten

/-- The escape strings of a token sequence, in order. -/
def escRenders (ts : List OTok) : List (List Nat) :=
  ts.filterMap (fun t =>
    match t with
    | .esc d1 d2 d3 => some [92, 48, d1, d2, d3]
    | .lit _ => none)

/-!  ### UTF-8 decoding (`bytes.decode("utf-8")`, line 146) -/

/-- Strict UTF-8 decoding of a byte list; `none` models
`UnicodeDecodeError`. -/
def utf8Decode : List Nat → Option (List Char)
  | [] => some []
  | b :: rest =>
    if b < 128 then (utf8Decode rest).map (fun cs => Char.ofNat b :: cs)
    else if 194 ≤ b ∧ b ≤ 223 then
      match rest with
      | c1 :: rest1 =>
        if 128 ≤ c1 ∧ c1 ≤ 191 then
          (utf8Decode rest1).map (fun cs =>
            Char.ofNat ((b - 192) * 64 + (c1 - 128)) :: cs)
        else none
      | [] => none
    else if 224 ≤ b ∧ b ≤ 239 then
      match rest with
      | c1 :: c2 :: rest2 =>
        if ((if b = 224 then 160 else 128) ≤ c1 ∧
              c1 ≤ (if b = 237 then 159 else 191)) ∧
            (128 ≤ c2 ∧ c2 ≤ 191) then
          (utf8Decode rest2).map (fun cs =>
            Char.ofNat ((b - 224) * 4096 + (c1 - 128) * 64 + (c2 - 128)) :: cs)
        else none
      | _ => none
    else if 240 ≤ b ∧ b ≤ 244 then
      match rest with
      | c1 :: c2 :: c3 :: rest3 =>
        if ((if b = 240 then 144 else 128) ≤ c1 ∧
              c1 ≤ (if b = 244 then 143 else 191)) ∧
            (128 ≤ c2 ∧ c2 ≤ 191) ∧ (128 ≤ c3 ∧ c3 ≤ 191) then
          (utf8Decode rest3).map (fun cs =>
            Char.ofNat ((b - 240) * 262144 + (c1 - 128) * 4096 +
              (c2 - 128) * 64 + (c3 - 128)) :: cs)
        else none
      | _ => none
    else none

/-!  ### getSortedDiffLines (lines 137-151 of zfsDiffReport.py)

The `zfs diff` invocation is an external collaborator; its raw stdout
blob is the parameter.  The function octal-decodes the blob at byte
level, decodes the result as UTF-8, splits it into lines and sorts the
lines by their second whitespace-separated field with Python's stable
`sorted`. -/

/-- The sort key `lambda x: x.split()[1]`; `none` models the `IndexError`
on a line with fewer than two fields. -/
def getKey (line : Str) : Option Str := (pyWsSplit line)[1]?

/-- Decorate every line with its sort key; Python's `sorted` computes the
key of every element, so a single malformed line poisons the whole call. -/
def keyedLines : List Str → Option (List (Str × Str))
  | [] => some []
  | l :: ls =>
    match getKey l with
    | none => none
    | some k => (keyedLines ls).map (fun r => (k, l) :: r)

/-- `getSortedDiffLines` (lines 137-151): byte-level octal decode, then
UTF-8 decode, then `splitlines`, then stable sort by the second field. -/
def getSortedDiffLines (stdout : List Nat) : Option (List Str) := do
  let decoded ← decode_octal stdout
  let text ← utf8Decode decoded
  let difflines := pySplitlines text
  let keyed ← keyedLines difflines
  pure ((pySortPairs keyed).map (fun p => p.2))

/-!  ### getHash (lines 163-173 of zfsDiffReport.py)

`hashlib.sha1` updated with 4096-byte chunks is equivalent to SHA-1 of
the whole byte stream; SHA-1 (FIPS 180) is implemented below.  The
filesystem (`Path.is_dir`, `Path.is_file`, `open`) is an external
collaborator modelled as a map from paths to entries. -/

/-- Truncation to a 32-bit word. -/
def w32 (n : Nat) : Nat := n % 4294967296

/-- 32-bit left rotation. -/
def rotl (k b : Nat) : Nat := w32 (b * 2 ^ k) ||| b / 2 ^ (32 - k)

/-- Big-endian byte expansion (`k` bytes, most significant first). -/
def beBytes : Nat → Nat → List Nat
  | 0, _ => []
  | k + 1, n => beBytes k (n / 256) ++ [n % 256]

/-- SHA-1 message padding. -/
def sha1pad (m : List Nat) : List Nat :=
  m ++ [128] ++ List.replicate ((64 + 55 - m.length % 64) % 64) 0 ++
    beBytes 8 ((8 * m.length) % 18446744073709551616)

/-- Split a byte list into 64-byte chunks. -/
def chunks64 : List Nat → List (List Nat)
  | [] => []
  | b :: r => (b :: r).take 64 :: chunks64 ((b :: r).drop 64)
termination_by l => l.length
decreasing_by simp; omega

/-- Combine bytes into big-endian 32-bit words. -/
def words16 : List Nat → List Nat
  | b0 :: b1 :: b2 :: b3 :: rest =>
    (((b0 * 256 + b1) * 256 + b2) * 256 + b3) :: words16 rest
  | _ => []

/-- Extend the sixteen chunk words by `k` further schedule words. -/
def extendW (acc : List Nat) : Nat → List Nat
  | 0 => acc
  | k + 1 =>
    let n := acc.length
    extendW (acc ++ [rotl 1 ((acc.getD (n - 3) 0) ^^^ (acc.getD (n - 8) 0) ^^^
      (acc.getD (n - 14) 0) ^^^ (acc.getD (n - 16) 0))]) k

/-- One SHA-1 round. -/
def sha1round (st : Nat × Nat × Nat × Nat × Nat) (iw : Nat × Nat) :
    Nat × Nat × Nat × Nat × Nat :=
  let a := st.1; let b := st.2.1; let c := st.2.2.1
  let d := st.2.2.2.1; let e := st.2.2.2.2
  let i := iw.1; let wv := iw.2
  let f :=
    if i < 20 then (b &&& c) ||| ((4294967295 ^^^ b) &&& d)
    else if i < 40 then b ^^^ c ^^^ d
    else if i < 60 then (b &&& c) ||| (b &&& d) ||| (c &&& d)
    else b ^^^ c ^^^ d
  let k :=
    if i < 20 then 1518500249
    else if i < 40 then 1859775393
    else if i < 60 then 2400959708
    else 3395469782
  (w32 (rotl 5 a + f + e + k + wv), a, rotl 30 b, c, d)

/-- Process one 64-byte chunk. -/
def sha1chunk (h : Nat × Nat × Nat × Nat × Nat) (chunk : List Nat) :
    Nat × Nat × Nat × Nat × Nat :=
  let ws := extendW (words16 chunk) 64
  let r := ws.enum.foldl sha1round h
  (w32 (h.1 + r.1), w32 (h.2.1 + r.2.1), w32 (h.2.2.1 + r.2.2.1),
    w32 (h.2.2.2.1 + r.2.2.2.1), w32 (h.2.2.2.2 + r.2.2.2.2))

/-- Lower-case hexadecimal digit. -/
def hexDigit (n : Nat) : Char :=
  if n < 10 then Char.ofNat (48 + n) else Char.ofNat (87 + n)

/-- Eight hex digits of a 32-bit word, most significant first. -/
def hex8 (w : Nat) : Str :=
  [hexDigit (w / 268435456 % 16), hexDigit (w / 16777216 % 16),
   hexDigit (w / 1048576 % 16), hexDigit (w / 65536 % 16),
   hexDigit (w / 4096 % 16), hexDigit (w / 256 % 16),
   hexDigit (w / 16 % 16), hexDigit (w % 16)]

/-- `hashlib.sha1(content).hexdigest()`. -/
def sha1hex (m : List Nat) : Str :=
  let h := (chunks64 (sha1pad m)).foldl sha1chunk
    (1732584193, 4023233417, 2562383102, 271733878, 3285377520)
  hex8 h.1 ++ hex8 h.2.1 ++ hex8 h.2.2.1 ++ hex8 h.2.2.2.1 ++ hex8 h.2.2.2.2

/-- What a path resolves to on disk: a directory, a regular file with its
byte content, or nothing usable (absent path, special file, ...). -/
inductive FsEntry : Type
  | dir : FsEntry
  | file : List Nat → FsEntry
  | missing : FsEntry
deriving DecidableEq

/-- `getHash(file)` (lines 163-173): the empty string for a directory or
a non-file, otherwise the SHA-1 hex digest of the file's content. -/
def getHash (fs : Str → FsEntry) (p : Str) : Str :=
  match fs p with
  | .dir => []
  | .missing => []
  | .file c => sha1hex c

/-!  ### getReducedDifflines (lines 176-233 of zfsDiffReport.py) -/

/-- The fixed snapshot-directory infix `"/.zfs/snapshot/"`. -/
def zfsstructure : Str := "/.zfs/snapshot/".data

/-- Lines 223-229: optionally strip the mount point (leftmost occurrence,
also after a rename arrow), then collapse whitespace runs
(`" ".join(line.split())`). -/
def postLine (stripVolumePath : Bool) (mountpoint line : Str) : Str :=
  let l :=
    if stripVolumePath then
      replaceFirst (replaceFirst line mountpoint [])
        ((" -> ".data) ++ mountpoint) (" -> ".data)
    else line
  List.intercalate [' '] (pyWsSplit l)

/-- What the loop body of `getReducedDifflines` (lines 194-221) decides
for the record at the cursor when another record follows it. -/
inductive Step : Type
  | err : Step
  | mRec (annotated : Str) (equal : Bool) : Step
  | pairSame (annotated annotatedNext : Str) (equal : Bool) : Step
  | plain : Step

/-- The decisions of lines 199-221 for record `line` followed by record
`next`: a Modified record (length above 3) is annotated with the hashes
of its path under both snapshots (lines 199-206, `err` when the line does
not contain the mount point); an adjacent `-`/`+` or `+`/`-` pair whose
relative paths agree is annotated with the hashes of that one path under
`snapshot1` (lines 208-221); everything else is passed through. -/
def classify (fs : Str → FsEntry) (mountpoint snap1 snap2 line next : Str) :
    Step :=
  if startsWith "M".data line && decide (3 < line.length) then
    match (pySplit mountpoint line)[1]? with
    | none => .err
    | some mfile =>
      .mRec (line ++ [' '] ++ getHash fs (snap1 ++ mfile) ++ [' '] ++
          getHash fs (snap2 ++ mfile))
        (getHash fs (snap1 ++ mfile) == getHash fs (snap2 ++ mfile))
  else if (startsWith "-".data line && startsWith "+".data next) ||
      (startsWith "+".data line && startsWith "-".data next) then
    match (pySplit mountpoint line)[1]?, (pySplit mountpoint next)[1]? with
    | some mfile, some pfile =>
      if mfile = pfile then
        .pairSame (line ++ [' '] ++ getHash fs (snap1 ++ mfile))
          (next ++ [' '] ++ getHash fs (snap1 ++ pfile))
          (getHash fs (snap1 ++ mfile) == getHash fs (snap1 ++ pfile))
      else .plain
    | _, _ => .err
  else .plain

/-- The `for index, line in enumerate(difflines)` loop of
`getReducedDifflines` (lines 189-233), as a recursion over the line list.
`snap1`/`snap2` are the already-resolved snapshot content roots.  `none`
models an uncaught `IndexError` from `line.split(mountpoint)[1]`.  An
`mRec`/`pairSame` record whose hashes agree is dropped (for a pair, both
records); an annotated pair with differing hashes keeps the annotated
records (the source mutates `difflines[index+1]` in place, hence the
recursion on `annotatedNext :: rest2`); the last record can only go
through the Modified branch (lines 199-206) because the pair branch
requires `index+1 < len(difflines)`. -/
def reduceLoop (fs : Str → FsEntry) (stripVolumePath : Bool)
    (mountpoint snap1 snap2 : Str) : List Str → Option (List Str)
  | [] => some []
  | [line] =>
    if startsWith "M".data line && decide (3 < line.length) then
      match (pySplit mountpoint line)[1]? with
      | none => none
      | some mfile =>
        if getHash fs (snap1 ++ mfile) == getHash fs (snap2 ++ mfile) then
          some []
        else
          some [postLine stripVolumePath mountpoint
            (line ++ [' '] ++ getHash fs (snap1 ++ mfile) ++ [' '] ++
              getHash fs (snap2 ++ mfile))]
    else some [postLine stripVolumePath mountpoint line]
  | line :: next :: rest2 =>
    match classify fs mountpoint snap1 snap2 line next with
    | .err => none
    | .mRec _ true =>
      reduceLoop fs stripVolumePath mountpoint snap1 snap2 (next :: rest2)
    | .mRec ann false =>
      (reduceLoop fs stripVolumePath mountpoint snap1 snap2 (next :: rest2)).map
        (postLine stripVolumePath mountpoint ann :: ·)
    | .pairSame _ _ true =>
      reduceLoop fs stripVolumePath mountpoint snap1 snap2 rest2
    | .pairSame ann annNext false =>
      (reduceLoop fs stripVolumePath mountpoint snap1 snap2
          (annNext :: rest2)).map
        (postLine stripVolumePath mountpoint ann :: ·)
    | .plain =>
      (reduceLoop fs stripVolumePath mountpoint snap1 snap2 (next :: rest2)).map
        (postLine stripVolumePath mountpoint line :: ·)
termination_by l => l.length
decreasing_by all_goals simp_arith

/-- `getReducedDifflines(difflines, stripVolumePath, mountpoint,
snapshot1, snapshot2)` (lines 176-233): resolve the two snapshot content
roots (`snapshotN.split("@")[1]`, whose `IndexError` on a name without
`"@"` is modelled by `none`) and run the reduction loop. -/
def getReducedDifflines (fs : Str → FsEntry) (difflines : List Str)
    (stripVolumePath : Bool) (mountpoint snapshot1 snapshot2 : Str) :
    Option (List Str) :=
  match (pySplit "@".data snapshot1)[1]?, (pySplit "@".data snapshot2)[1]? with
  | some t1, some t2 =>
    reduceLoop fs stripVolumePath mountpoint
      (mountpoint ++ zfsstructure ++ t1) (mountpoint ++ zfsstructure ++ t2)
      difflines
  | _, _ => none

/-!  ### main (lines 248-344 of zfsDiffReport.py)

The external collaborators (`zfs list`, `zfs diff`, the filesystem under
`/.zfs/snapshot/`) are collected in an environment.  The model covers the
per-volume loop (lines 285-308) and the final summary (lines 340-344);
report writing is an external collaborator and the observable result is
the collected diff-line list.  The volume list is taken after the
`list(set(...))` de-duplication of line 283. -/

structure Env : Type where
  /-- Output lines of `zfs list -t snapshot -o name -s creation -r v`,
  oldest first. -/
  snaps : Str → List Str
  /-- Raw stdout of `zfs diff s1 s2`. -/
  diff : Str → Str → List Nat
  /-- The filesystem as seen under the snapshot content roots. -/
  fs : Str → FsEntry

structure Args : Type where
  snapshotkeys : List Str
  /-- `args.exclude`; Python `None` is the empty list. -/
  exclude : List Str
  /-- `args.reduce`. -/
  reduce : Bool
  /-- Truthiness of `args.filename`. -/
  filename : Bool

/-- The per-volume work after a successful snapshot selection
(lines 296-306): diff, filter, optionally reduce. -/
def volumePipeline (env : Env) (args : Args) (stripVolumePath : Bool)
    (volume s1 s2 : Str) : Option (List Str) := do
  let difflines ← getSortedDiffLines (env.diff s1 s2)
  let difflines := getFilteredDifflines difflines args.exclude
  if args.reduce then
    getReducedDifflines env.fs difflines stripVolumePath
      (('/' :: volume)) s1 s2
  else
    pure difflines

/-- The `for volume in volumes` loop (lines 287-308), threading the
collected diff lines and the error count.  A volume whose snapshot
selection reports `enoughSnapshots == False` is counted and skipped; any
uncaught exception (`none`) aborts the whole run. -/
def mainLoop (env : Env) (args : Args) (stripVolumePath : Bool) :
    List Str → List Str × Nat → Option (List Str × Nat)
  | [], acc => some acc
  | v :: vs, (collected, errors) =>
    match getSnapshots (env.snaps v) args.snapshotkeys with
    | none => none
    | some (false, _, _) => mainLoop env args stripVolumePath vs (collected, errors + 1)
    | some (true, s1, s2) =>
      match volumePipeline env args stripVolumePath v s1 s2 with
      | none => none
      | some dl => mainLoop env args stripVolumePath vs (collected ++ dl, errors)

/-- `main` (lines 248-344) restricted to its per-volume loop: returns the
collected diff lines together with the final summary "N/M volumes were
reported" of line 343, or `none` when an exception escapes.
`stripVolumePath` is computed as on lines 299-300. -/
def mainModel (env : Env) (args : Args) (volumes : List Str) :
    Option (List Str × Nat × Nat) :=
  (mainLoop env args (!(args.filename && decide (1 < volumes.length)))
      volumes ([], 0)).map
    (fun p => (p.1, volumes.length - p.2, volumes.length))

/-- Whether a volume's snapshot selection reports too few snapshots. -/
def selFails (env : Env) (args : Args) (v : Str) : Bool :=
  match getSnapshots (env.snaps v) args.snapshotkeys with
  | some (false, _, _) => true
  | _ => false

/-- The lines a volume contributes to the collected report (empty for a
skipped volume). -/
def volumeLines (env : Env) (args : Args) (stripVolumePath : Bool) (v : Str) :
    List Str :=
  match getSnapshots (env.snaps v) args.snapshotkeys with
  | some (true, s1, s2) =>
    (volumePipeline env args stripVolumePath v s1 s2).getD []
  | _ => []

/-!  ## Supporting lemmas -/

theorem pySplit_of_none (sep s : Str) (hsep : ¬ sep.isEmpty)
    (h : findSubstrIdx sep s = none) : pySplit sep s = [s] := by
  unfold pySplit
  rw [dif_neg hsep]
  split
  · rfl
  · next i heq => rw [h] at heq; cases heq

theorem pySplit_of_some (sep s : Str) (hsep : ¬ sep.isEmpty) (i : Nat)
    (h : findSubstrIdx sep s = some i) :
    pySplit sep s = s.take i :: pySplit sep (s.drop (i + sep.length)) := by
  conv_lhs => rw [pySplit]
  rw [dif_neg hsep]
  split
  · next heq => rw [h] at heq; cases heq
  · next j heq =>
    rw [h] at heq
    injection heq with hji
    subst hji
    rfl

/-- `findSubstrIdx` succeeds exactly on substrings. -/
theorem findSubstrIdx_isSome (pat : Str) :
    ∀ s, (findSubstrIdx pat s).isSome = true ↔ pat <:+: s := by
  intro s
  induction s with
  | nil =>
    by_cases hp : pat.isEmpty <;>
      simp [findSubstrIdx, hp, List.isEmpty_iff, List.infix_nil] <;>
      simp [List.isEmpty_iff] at hp <;> simp [hp]
  | cons c cs ih =>
    simp only [findSubstrIdx]
    by_cases hp : pat.isPrefixOf (c :: cs)
    · simp only [hp, if_true, Option.isSome_some, true_iff]
      exact (List.isPrefixOf_iff_prefix.mp hp).isInfix
    · rw [if_neg (by simp [hp]), Option.isSome_map', ih, List.infix_cons_iff]
      constructor
      · exact Or.inr
      · rintro (hpre | hinf)
        · exact absurd (List.isPrefixOf_iff_prefix.mpr hpre) hp
        · exact hinf

/-- Python's `in` on strings is substring containment. -/
theorem pyIn_iff (pat s : Str) : pyIn pat s = true ↔ pat <:+: s := by
  unfold pyIn
  exact findSubstrIdx_isSome pat s

/-- When the pattern does not occur, `findSubstrIdx` returns `none`. -/
theorem findSubstrIdx_eq_none (pat s : Str) (h : ¬ pat <:+: s) :
    findSubstrIdx pat s = none := by
  have := (findSubstrIdx_isSome pat s).not.mpr h
  simpa using this

/-- Evaluation helper: a split with exactly one separator occurrence. -/
theorem pySplit_two (sep s pre post2 : Str) (hsep : ¬ sep.isEmpty) (i : Nat)
    (hfind : findSubstrIdx sep s = some i)
    (hpre : s.take i = pre) (hpost : s.drop (i + sep.length) = post2)
    (hnone : findSubstrIdx sep post2 = none) :
    pySplit sep s = [pre, post2] := by
  rw [pySplit_of_some sep s hsep i hfind, hpre, hpost,
    pySplit_of_none sep post2 hsep hnone]

/-!  ## Claim C9 -/

/-- C9: For every ChangeSet and every (possibly empty) set of exclusion
substrings, `getFilteredDifflines` retains exactly those records whose
full raw line contains none of the exclusion substrings as a literal
substring; the output is a subsequence of the input, and with an empty
exclusion set the filter is the identity. -/
theorem c9_filter_characterization :
    (∀ (difflines excludes : List Str),
        getFilteredDifflines difflines excludes =
          difflines.filter (fun x => decide (∀ f ∈ excludes, ¬ f <:+: x))) ∧
    (∀ (difflines excludes : List Str),
        (getFilteredDifflines difflines excludes).Sublist difflines) ∧
    (∀ difflines : List Str, getFilteredDifflines difflines [] = difflines) := by
  refine ⟨?_, ?_, ?_⟩
  · intro l ex
    unfold getFilteredDifflines
    by_cases he : ex.isEmpty
    · rw [if_pos he, List.isEmpty_iff.mp he]
      simp
    · rw [if_neg he]
      apply List.filter_congr
      intro x _
      cases hany : ex.any (fun f => pyIn f x) with
      | true =>
        obtain ⟨f, hf, hpy⟩ := List.any_eq_true.mp hany
        have hno : ¬ (∀ f ∈ ex, ¬ f <:+: x) :=
          fun hall => hall f hf ((pyIn_iff f x).mp hpy)
        simp [hno]
      | false =>
        have hall : ∀ f ∈ ex, ¬ f <:+: x := by
          intro f hf hinf
          exact absurd ((pyIn_iff f x).mpr hinf)
            (by simpa using List.any_eq_false.mp hany f hf)
        rw [decide_eq_true hall]
        rfl
  · intro l ex
    unfold getFilteredDifflines
    split
    · exact List.Sublist.refl l
    · exact List.filter_sublist l
  · intro l
    simp [getFilteredDifflines]

/-!  ## Claim C7 -/

/-- C7: Whenever snapshot-pair selection succeeds, the returned pair
(snapshot1, snapshot2) satisfies: the position of snapshot1 in the
creation-ordered input list is less than or equal to the position of
snapshot2, for every input list and every keyword list. -/
theorem c7_selected_pair_chronological (snaps keys : List Str) (a b : Str)
    (h : getSnapshots snaps keys = some (true, a, b)) :
    ∃ i j, pyIndex snaps a = some i ∧ pyIndex snaps b = some j ∧ i ≤ j := by
  unfold getSnapshots at h
  rcases h1 : (candidateSnapshots snaps keys).dropLast.getLast? with _ | s1 <;>
    rcases h2 : (candidateSnapshots snaps keys).getLast? with _ | s2 <;>
    rw [h1, h2] at h <;> simp only [] at h
  · simp at h
  · simp at h
  · simp at h
  · rcases h3 : pyIndex snaps s1 with _ | i1 <;>
      rcases h4 : pyIndex snaps s2 with _ | i2 <;> rw [h3, h4] at h <;>
      dsimp only at h
    · cases h
    · cases h
    · cases h
    · by_cases hgt : i1 > i2
      · rw [if_pos hgt] at h
        simp only [Option.some.injEq, Prod.mk.injEq, true_and] at h
        obtain ⟨rfl, rfl⟩ := h
        exact ⟨i2, i1, h4, h3, Nat.le_of_lt hgt⟩
      · rw [if_neg hgt] at h
        simp only [Option.some.injEq, Prod.mk.injEq, true_and] at h
        obtain ⟨rfl, rfl⟩ := h
        exact ⟨i1, i2, h3, h4, Nat.le_of_not_lt hgt⟩

/-- C7 witness: a concrete successful selection, with no keywords. -/
theorem c7_selected_pair_chronological_witness :
    ∃ i j, pyIndex ["p@a".data, "p@b".data] "p@a".data = some i ∧
      pyIndex ["p@a".data, "p@b".data] "p@b".data = some j ∧ i ≤ j :=
  c7_selected_pair_chronological ["p@a".data, "p@b".data] [] _ _ (by decide)

/-!  ## Claim C6 -/

/-- The last element of a filtered list is the last element of the
original list satisfying the predicate. -/
theorem getLast?_filter_decomp (p : Str → Bool) (l : List Str) (m : Str)
    (h : (l.filter p).getLast? = some m) :
    ∃ pre post, l = pre ++ m :: post ∧ p m = true ∧ ∀ x ∈ post, p x = false := by
  induction l using List.reverseRecOn with
  | nil => simp at h
  | append_singleton l' a ih =>
    rw [List.filter_append] at h
    by_cases hpa : p a
    · rw [show List.filter p [a] = [a] by simp [hpa], List.getLast?_concat] at h
      injection h with h'
      exact ⟨l', [], by rw [h'], h' ▸ hpa, by simp⟩
    · rw [show List.filter p [a] = [] by simp [hpa], List.append_nil] at h
      obtain ⟨pre, post, rfl, hm, hpost⟩ := ih h
      refine ⟨pre, post ++ [a], by simp, hm, ?_⟩
      intro x hx
      rcases List.mem_append.mp hx with h1 | h2
      · exact hpost x h1
      · rw [List.mem_singleton.mp h2]
        exact Bool.not_eq_true _ ▸ (by simpa using hpa)

/-- A member of the list has an index. -/
theorem pyIndex_isSome_of_mem (l : List Str) (x : Str) (h : x ∈ l) :
    ∃ i, pyIndex l x = some i := by
  induction l with
  | nil => simp at h
  | cons y ys ih =>
    unfold pyIndex
    by_cases hy : y = x
    · exact ⟨0, by simp [hy]⟩
    · have hx : x ∈ ys := by
        rcases List.mem_cons.mp h with h1 | h2
        · exact absurd h1.symm hy
        · exact h2
      obtain ⟨i, hi⟩ := ih hx
      exact ⟨i + 1, by rw [if_neg hy, hi]; rfl⟩

/-- C6 counterexample: with keywords `k1`, `k2` over the snapshot list
`["A@k1k2", "A@k1"]`, the snapshot selected for the first keyword is
`"A@k1"`, and `"A@k1k2"` contains the second keyword and is not identical
to `"A@k1"` — by the claim it is still eligible, so selection should
succeed and pair the two.  The code instead excludes every snapshot whose
identifier merely *contains* `"A@k1"` as a substring, leaves one
candidate, and fails with the insufficient-snapshots signal. -/
theorem c6_substring_exclusion_counterexample :
    getSnapshots ["A@k1k2".data, "A@k1".data] ["k1".data, "k2".data] =
      some (false, [], []) ∧
    (["A@k1k2".data, "A@k1".data].filter
        (fun x => pyIn "k1".data x)).getLast? = some "A@k1".data ∧
    pyIn "k2".data "A@k1k2".data = true ∧
    "A@k1k2".data ≠ "A@k1".data :=
  ⟨by decide, by decide, by decide, by decide⟩

/-- C6 (amended): with exactly two keywords, selection picks the most
recent snapshot that contains the second keyword and does not contain
the first-selected snapshot's identifier as a substring (so a
second-keyword snapshot whose identifier contains the first-selected
identifier, even as a proper substring, is excluded), and pairs it with
the first-keyword snapshot, chronologically ordered. -/
theorem c6_second_keyword_exclusion (snaps : List Str) (k1 k2 first m : Str)
    (hfirst : (snaps.filter (fun x => pyIn k1 x)).getLast? = some first)
    (hm : (snaps.filter (fun x => pyIn k2 x && !(pyIn first x))).getLast? =
      some m) :
    (∃ pre post, snaps = pre ++ m :: post ∧
        (pyIn k2 m && !(pyIn first m)) = true ∧
        ∀ x ∈ post, (pyIn k2 x && !(pyIn first x)) = false) ∧
    ∃ i j, pyIndex snaps m = some i ∧ pyIndex snaps first = some j ∧
      getSnapshots snaps [k1, k2] =
        some (true, if i > j then first else m, if i > j then m else first) := by
  refine ⟨getLast?_filter_decomp _ _ _ hm, ?_⟩
  have hcand : candidateSnapshots snaps [k1, k2] =
      (snaps.filter (fun x => pyIn k2 x && !(pyIn first x))) ++ [first] := by
    unfold candidateSnapshots
    dsimp only
    rw [hfirst]
  have hmMem : m ∈ snaps := List.mem_of_mem_filter (List.mem_of_mem_getLast? hm)
  have hfMem : first ∈ snaps :=
    List.mem_of_mem_filter (List.mem_of_mem_getLast? hfirst)
  obtain ⟨i, hi⟩ := pyIndex_isSome_of_mem _ _ hmMem
  obtain ⟨j, hj⟩ := pyIndex_isSome_of_mem _ _ hfMem
  refine ⟨i, j, hi, hj, ?_⟩
  unfold getSnapshots
  rw [hcand, List.dropLast_concat, List.getLast?_concat, hm]
  dsimp only
  rw [hi, hj]
  dsimp only
  by_cases hgt : i > j
  · rw [if_pos hgt, if_pos hgt, if_pos hgt]
  · rw [if_neg hgt, if_neg hgt, if_neg hgt]

/-- C6 witness: a concrete two-keyword selection in which the excluded
set does not bite and the chronological swap fires. -/
theorem c6_second_keyword_exclusion_witness :
    (∃ pre post, ["B@k2x".data, "A@k1".data] = pre ++ "B@k2x".data :: post ∧
        (pyIn "k2".data "B@k2x".data && !(pyIn "A@k1".data "B@k2x".data)) = true ∧
        ∀ x ∈ post,
          (pyIn "k2".data x && !(pyIn "A@k1".data x)) = false) ∧
    ∃ i j, pyIndex ["B@k2x".data, "A@k1".data] "B@k2x".data = some i ∧
      pyIndex ["B@k2x".data, "A@k1".data] "A@k1".data = some j ∧
      getSnapshots ["B@k2x".data, "A@k1".data] ["k1".data, "k2".data] =
        some (true, if i > j then "A@k1".data else "B@k2x".data,
          if i > j then "B@k2x".data else "A@k1".data) :=
  c6_second_keyword_exclusion _ _ _ _ _ (by decide) (by decide)

/-!  ## Claim C8 -/

/-- Fewer than two candidates: `getSnapshots` reports failure. -/
theorem getSnapshots_insufficient (snaps keys : List Str)
    (h : (candidateSnapshots snaps keys).length < 2) :
    getSnapshots snaps keys = some (false, [], []) := by
  unfold getSnapshots
  rcases hc : candidateSnapshots snaps keys with _ | ⟨x, _ | ⟨y, l⟩⟩
  · rfl
  · rfl
  · rw [hc] at h
    simp at h
    omega

/-- The loop processes every volume, skipping and counting the ones whose
snapshot selection fails, provided nothing raises. -/
theorem mainLoop_ok (env : Env) (args : Args) (strip : Bool) :
    ∀ (volumes coll : List Str) (errs : Nat),
    (∀ v ∈ volumes, getSnapshots (env.snaps v) args.snapshotkeys ≠ none) →
    (∀ v ∈ volumes, ∀ s1 s2,
        getSnapshots (env.snaps v) args.snapshotkeys = some (true, s1, s2) →
        volumePipeline env args strip v s1 s2 ≠ none) →
    mainLoop env args strip volumes (coll, errs) =
      some (coll ++ (volumes.map (volumeLines env args strip)).flatten,
        errs + volumes.countP (fun v => selFails env args v)) := by
  intro volumes
  induction volumes with
  | nil =>
    intro coll errs _ _
    simp [mainLoop]
  | cons v vs ih =>
    intro coll errs hsel hpipe
    unfold mainLoop
    rcases hg : getSnapshots (env.snaps v) args.snapshotkeys with _ | ⟨b, s1, s2⟩
    · exact absurd hg (hsel v (by simp))
    · cases b with
      | false =>
        dsimp only
        rw [ih coll (errs + 1) (fun w hw => hsel w (by simp [hw]))
          (fun w hw => hpipe w (by simp [hw]))]
        have hv : volumeLines env args strip v = [] := by
          unfold volumeLines
          rw [hg]
        have hs : selFails env args v = true := by
          unfold selFails
          rw [hg]
        rw [List.map_cons, List.flatten_cons, hv, List.countP_cons, hs]
        simp only [List.nil_append, if_true, Option.some.injEq, Prod.mk.injEq]
        exact ⟨trivial, by omega⟩
      | true =>
        dsimp only
        rcases hp : volumePipeline env args strip v s1 s2 with _ | dl
        · exact absurd hp (hpipe v (by simp) s1 s2 hg)
        · dsimp only
          rw [ih (coll ++ dl) errs (fun w hw => hsel w (by simp [hw]))
            (fun w hw => hpipe w (by simp [hw]))]
          have hv : volumeLines env args strip v = dl := by
            unfold volumeLines
            rw [hg]
            dsimp only
            rw [hp]
            rfl
          have hs : selFails env args v = false := by
            unfold selFails
            rw [hg]
          rw [List.map_cons, List.flatten_cons, hv, List.countP_cons, hs]
          simp only [Option.some.injEq, Prod.mk.injEq]
          exact ⟨by simp, by simp⟩

/-- C8: a volume with fewer than two qualifying snapshots makes
`getSnapshots` report failure, and that failure is recoverable per
volume: the volume contributes nothing, every other volume is still
processed, and the run ends with the summary
`(volumes reported, total volumes)`. -/
theorem c8_insufficient_snapshots_recoverable :
    (∀ snaps keys : List Str, (candidateSnapshots snaps keys).length < 2 →
        getSnapshots snaps keys = some (false, [], [])) ∧
    (∀ (env : Env) (args : Args) (volumes : List Str),
      (∀ v ∈ volumes, getSnapshots (env.snaps v) args.snapshotkeys ≠ none) →
      (∀ v ∈ volumes, ∀ s1 s2,
          getSnapshots (env.snaps v) args.snapshotkeys = some (true, s1, s2) →
          volumePipeline env args
            (!(args.filename && decide (1 < volumes.length))) v s1 s2 ≠ none) →
      mainModel env args volumes =
        some ((volumes.map (volumeLines env args
            (!(args.filename && decide (1 < volumes.length))))).flatten,
          volumes.length - volumes.countP (fun v => selFails env args v),
          volumes.length)) := by
  refine ⟨getSnapshots_insufficient, ?_⟩
  intro env args volumes hsel hpipe
  unfold mainModel
  rw [mainLoop_ok env args _ volumes [] 0 hsel hpipe]
  simp

/-- C8 witness: volume `"a"` has one snapshot and is skipped, volume
`"b"` is still processed, and the summary reports 1 of 2 volumes. -/
theorem c8_insufficient_snapshots_recoverable_witness :
    mainModel
      ⟨fun v => if v = "a".data then ["p@x".data]
        else ["q@s1".data, "q@s2".data],
       fun _ _ => [], fun _ => FsEntry.dir⟩
      ⟨[], [], false, false⟩ ["a".data, "b".data] = some ([], 1, 2) := by
  rw [c8_insufficient_snapshots_recoverable.2 _ _ _ (by decide) ?h2]
  · decide
  case h2 =>
    intro v hv s1 s2 hg
    fin_cases hv
    · rw [show getSnapshots
          ((fun v => if v = "a".data then ["p@x".data]
            else ["q@s1".data, "q@s2".data]) "a".data) [] =
          some (false, [], []) from by decide] at hg
      simp at hg
    · rw [show getSnapshots
          ((fun v => if v = "a".data then ["p@x".data]
            else ["q@s1".data, "q@s2".data]) "b".data) [] =
          some (true, "q@s1".data, "q@s2".data) from by decide] at hg
      simp only [Option.some.injEq, Prod.mk.injEq, true_and] at hg
      obtain ⟨rfl, rfl⟩ := hg
      decide

/-!  ## Claim C5 -/

/-- A single key-less line poisons the whole key-decoration pass. -/
theorem keyedLines_eq_none (lines : List Str) (l : Str) (hl : l ∈ lines)
    (hk : getKey l = none) : keyedLines lines = none := by
  induction lines with
  | nil => simp at hl
  | cons a as ih =>
    unfold keyedLines
    rcases List.mem_cons.mp hl with rfl | hmem
    · rw [hk]
    · rcases hga : getKey a with _ | k
      · rfl
      · rw [ih hmem]
        rfl

/-- C5 counterexample: volume `"v1"` has a diff line `"M"` with no second
field; by the claim only `"v1"`'s comparison should abort while `"v2"` is
still processed and the summary reports the count.  Instead the whole run
aborts with an uncaught `IndexError` (first conjunct), although `"v2"` on
its own would have been processed fine (second conjunct). -/
theorem c5_malformed_aborts_run_counterexample :
    mainModel
      ⟨fun v => if v = "v1".data then ["p@a".data, "p@b".data]
        else ["q@a".data, "q@b".data],
       fun s1 _ => if s1 = "p@a".data then [77, 10] else [],
       fun _ => FsEntry.dir⟩
      ⟨[], [], false, false⟩ ["v1".data, "v2".data] = none ∧
    mainModel
      ⟨fun v => if v = "v1".data then ["p@a".data, "p@b".data]
        else ["q@a".data, "q@b".data],
       fun s1 _ => if s1 = "p@a".data then [77, 10] else [],
       fun _ => FsEntry.dir⟩
      ⟨[], [], false, false⟩ ["v2".data] = some ([], 1, 1) :=
  ⟨by decide, by decide⟩

/-- C5 (amended): a raw line with no second whitespace-separated field
makes normalization fail (the sort key raises `IndexError`, modelled as
`none`), and that failure aborts the entire run — the remaining volumes
are not processed and no summary is produced. -/
theorem c5_malformed_aborts_run :
    (∀ (stdout bs : List Nat) (text : List Char) (l : Str),
        decode_octal stdout = some bs → utf8Decode bs = some text →
        l ∈ pySplitlines text → (pyWsSplit l).length < 2 →
        getSortedDiffLines stdout = none) ∧
    (∀ (env : Env) (args : Args) (v : Str) (vs : List Str) (s1 s2 : Str),
        getSnapshots (env.snaps v) args.snapshotkeys = some (true, s1, s2) →
        getSortedDiffLines (env.diff s1 s2) = none →
        mainModel env args (v :: vs) = none) := by
  constructor
  · intro stdout bs text l h1 h2 hmem hlen
    have hkey : getKey l = none := by
      unfold getKey
      exact List.getElem?_eq_none (by omega)
    have hk : keyedLines (pySplitlines text) = none :=
      keyedLines_eq_none _ l hmem hkey
    simp [getSortedDiffLines, h1, h2, hk]
  · intro env args v vs s1 s2 hg hdiff
    unfold mainModel mainLoop
    rw [hg]
    dsimp only
    have hp : volumePipeline env args
        (!(args.filename && decide (1 < (v :: vs).length))) v s1 s2 = none := by
      unfold volumePipeline
      rw [hdiff]
      rfl
    rw [hp]
    rfl

/-- C5 witness: the amended theorem applied to the concrete two-volume
environment of the counterexample. -/
theorem c5_malformed_aborts_run_witness :
    mainModel
      ⟨fun v => if v = "v1".data then ["p@a".data, "p@b".data]
        else ["q@a".data, "q@b".data],
       fun s1 _ => if s1 = "p@a".data then [77, 10] else [],
       fun _ => FsEntry.dir⟩
      ⟨[], [], false, false⟩ ("v1".data :: ["v2".data]) = none :=
  c5_malformed_aborts_run.2 _ _ _ _ "p@a".data "p@b".data
    (by decide) (by decide)

/-!  ## Claim C10 -/

/-- C10: `getReducedDifflines` is not total: on an input whose first line
is a Modified record (length above 3) that does not contain the mount
point as a substring, the path extraction `line.split(mountpoint)[1]`
indexes past the end of the one-element split result and the whole
reduction fails with an uncaught `IndexError` (modelled `none`) instead
of returning a ChangeSet. -/
theorem c10_reduce_requires_mountpoint (fs : Str → FsEntry)
    (stripVolumePath : Bool) (mountpoint snapshot1 snapshot2 t1 t2 : Str)
    (line : Str) (rest : List Str)
    (h1 : (pySplit "@".data snapshot1)[1]? = some t1)
    (h2 : (pySplit "@".data snapshot2)[1]? = some t2)
    (hM : startsWith "M".data line = true)
    (hlen : 3 < line.length)
    (hmp : ¬ mountpoint <:+: line) :
    getReducedDifflines fs (line :: rest) stripVolumePath mountpoint
      snapshot1 snapshot2 = none := by
  have hne : ¬ mountpoint.isEmpty := by
    intro he
    exact hmp (List.isEmpty_iff.mp he ▸ List.nil_infix)
  have hsplit : pySplit mountpoint line = [line] :=
    pySplit_of_none _ _ hne (findSubstrIdx_eq_none _ _ hmp)
  have hidx : (pySplit mountpoint line)[1]? = none := by
    rw [hsplit]
    rfl
  have hcond : (startsWith "M".data line && decide (3 < line.length)) = true := by
    rw [hM, decide_eq_true hlen]
    rfl
  unfold getReducedDifflines
  rw [h1, h2]
  dsimp only
  cases rest with
  | nil => rw [reduceLoop, if_pos hcond, hidx]
  | cons next rest2 =>
    have hcl : ∀ sa sb, classify fs mountpoint sa sb line next = .err := by
      intro sa sb
      unfold classify
      rw [if_pos hcond, hidx]
    rw [reduceLoop, hcl]

/-- C10 witness: a Modified line `"M xyz"` with mount point `"/v"`. -/
theorem c10_reduce_requires_mountpoint_witness :
    getReducedDifflines (fun _ => FsEntry.dir) ["M xyz".data] false "/v".data
      "p@a".data "p@b".data = none := by
  have hsA : pySplit "@".data "p@a".data = ["p".data, "a".data] :=
    pySplit_two _ _ _ _ (by decide) 1 (by decide) (by decide) (by decide)
      (by decide)
  have hsB : pySplit "@".data "p@b".data = ["p".data, "b".data] :=
    pySplit_two _ _ _ _ (by decide) 1 (by decide) (by decide) (by decide)
      (by decide)
  exact c10_reduce_requires_mountpoint (fun _ => FsEntry.dir) false "/v".data
    "p@a".data "p@b".data "a".data "b".data "M xyz".data []
    (by rw [hsA]; rfl) (by rw [hsB]; rfl) (by decide) (by decide) (by decide)

/-!  ## Claims C2 and C3 -/

/-- A record starting with `-` or `+` does not start with `M`. -/
theorem not_m_of_sign (line : Str)
    (h : startsWith "-".data line = true ∨ startsWith "+".data line = true) :
    startsWith "M".data line = false := by
  rcases h with h | h <;>
  · obtain ⟨t, rfl⟩ := List.isPrefixOf_iff_prefix.mp h
    rfl

/-- An adjacent `-`/`+` (or `+`/`-`) pair over one shared relative path is
classified `pairSame` with both annotations carrying the hash of that
path under `snap1`, and the equal flag true. -/
theorem classify_pair_same (fs : Str → FsEntry)
    (mountpoint snap1 snap2 line next f : Str)
    (hheads : (startsWith "-".data line = true ∧
        startsWith "+".data next = true) ∨
      (startsWith "+".data line = true ∧ startsWith "-".data next = true))
    (hsl : (pySplit mountpoint line)[1]? = some f)
    (hsn : (pySplit mountpoint next)[1]? = some f) :
    classify fs mountpoint snap1 snap2 line next =
      .pairSame (line ++ [' '] ++ getHash fs (snap1 ++ f))
        (next ++ [' '] ++ getHash fs (snap1 ++ f)) true := by
  have hM : startsWith "M".data line = false :=
    not_m_of_sign line (hheads.imp (fun h => h.1) (fun h => h.1))
  have hpair : ((startsWith "-".data line && startsWith "+".data next) ||
      (startsWith "+".data line && startsWith "-".data next)) = true := by
    rcases hheads with ⟨hA, hB⟩ | ⟨hA, hB⟩ <;> rw [hA, hB] <;> simp
  unfold classify
  rw [if_neg (by rw [hM]; simp), if_pos hpair, hsl, hsn]
  dsimp only
  rw [if_pos rfl, beq_self_eq_true]

/-- Dropping an adjacent same-path pair: the loop continues on the rest. -/
theorem reduceLoop_pair_drop (fs : Str → FsEntry) (stripVolumePath : Bool)
    (mountpoint snap1 snap2 line next f : Str) (rest2 : List Str)
    (hheads : (startsWith "-".data line = true ∧
        startsWith "+".data next = true) ∨
      (startsWith "+".data line = true ∧ startsWith "-".data next = true))
    (hsl : (pySplit mountpoint line)[1]? = some f)
    (hsn : (pySplit mountpoint next)[1]? = some f) :
    reduceLoop fs stripVolumePath mountpoint snap1 snap2
        (line :: next :: rest2) =
      reduceLoop fs stripVolumePath mountpoint snap1 snap2 rest2 := by
  rw [reduceLoop, classify_pair_same fs mountpoint snap1 snap2 line next f
    hheads hsl hsn]

/-- C2: for an adjacent Deleted/Created (or Created/Deleted) pair over
the same relative path, the reduction computes both fingerprints from the
older snapshot's copy of that one path — the classification annotates
both records with `getHash fs (snap1 ++ f)` and its equal flag is `true`
for every filesystem, so the pair is always dropped and the
differing-fingerprints branch is unreachable, regardless of whether the
file's content differs between the two snapshots. -/
theorem c2_pair_hashes_from_older_snapshot (fs : Str → FsEntry)
    (stripVolumePath : Bool) (mountpoint snap1 snap2 line next f : Str)
    (rest2 : List Str)
    (hheads : (startsWith "-".data line = true ∧
        startsWith "+".data next = true) ∨
      (startsWith "+".data line = true ∧ startsWith "-".data next = true))
    (hsl : (pySplit mountpoint line)[1]? = some f)
    (hsn : (pySplit mountpoint next)[1]? = some f) :
    classify fs mountpoint snap1 snap2 line next =
      .pairSame (line ++ [' '] ++ getHash fs (snap1 ++ f))
        (next ++ [' '] ++ getHash fs (snap1 ++ f)) true ∧
    reduceLoop fs stripVolumePath mountpoint snap1 snap2
        (line :: next :: rest2) =
      reduceLoop fs stripVolumePath mountpoint snap1 snap2 rest2 :=
  ⟨classify_pair_same fs mountpoint snap1 snap2 line next f hheads hsl hsn,
   reduceLoop_pair_drop fs stripVolumePath mountpoint snap1 snap2 line next f
     rest2 hheads hsl hsn⟩

/-- C2 witness: a concrete `-`/`+` pair over the path `/d`. -/
theorem c2_pair_hashes_from_older_snapshot_witness :
    classify (fun _ => FsEntry.dir) "/v".data "s1root".data "s2root".data
        "- /v/d".data "+ /v/d".data =
      .pairSame ("- /v/d".data ++ [' '] ++
          getHash (fun _ => FsEntry.dir) ("s1root".data ++ "/d".data))
        ("+ /v/d".data ++ [' '] ++
          getHash (fun _ => FsEntry.dir) ("s1root".data ++ "/d".data)) true ∧
    reduceLoop (fun _ => FsEntry.dir) true "/v".data "s1root".data
        "s2root".data ["- /v/d".data, "+ /v/d".data] =
      reduceLoop (fun _ => FsEntry.dir) true "/v".data "s1root".data
        "s2root".data [] := by
  have hm : pySplit "/v".data "- /v/d".data = ["- ".data, "/d".data] :=
    pySplit_two _ _ _ _ (by decide) 2 (by decide) (by decide) (by decide)
      (by decide)
  have hp : pySplit "/v".data "+ /v/d".data = ["+ ".data, "/d".data] :=
    pySplit_two _ _ _ _ (by decide) 2 (by decide) (by decide) (by decide)
      (by decide)
  exact c2_pair_hashes_from_older_snapshot (fun _ => FsEntry.dir) true
    "/v".data "s1root".data "s2root".data "- /v/d".data "+ /v/d".data
    "/d".data [] (Or.inl ⟨by decide, by decide⟩)
    (by rw [hm]; rfl) (by rw [hp]; rfl)

/-- C3: a sorted ChangeSet whose cursor reaches an adjacent
Deleted/Created pair (in either order) over one shared relative path has
both records dropped — the reduction of the whole list equals the
reduction of the list without the two records, so neither is considered
for any other pairing and all other records are unaffected.  (The
claim's equal-fingerprints condition always holds: both fingerprints are
computed from the same path under the older snapshot, see C2.) -/
theorem c3_same_pair_dropped (fs : Str → FsEntry) (stripVolumePath : Bool)
    (mountpoint snapshot1 snapshot2 line next f : Str) (rest2 : List Str)
    (hheads : (startsWith "-".data line = true ∧
        startsWith "+".data next = true) ∨
      (startsWith "+".data line = true ∧ startsWith "-".data next = true))
    (hsl : (pySplit mountpoint line)[1]? = some f)
    (hsn : (pySplit mountpoint next)[1]? = some f) :
    getReducedDifflines fs (line :: next :: rest2) stripVolumePath
        mountpoint snapshot1 snapshot2 =
      getReducedDifflines fs rest2 stripVolumePath mountpoint snapshot1
        snapshot2 := by
  unfold getReducedDifflines
  rcases h1 : (pySplit "@".data snapshot1)[1]? with _ | t1 <;>
    rcases h2 : (pySplit "@".data snapshot2)[1]? with _ | t2 <;> dsimp only <;>
    first
      | rfl
      | exact reduceLoop_pair_drop fs stripVolumePath mountpoint _ _ line next
          f rest2 hheads hsl hsn

/-- C3 witness: the concrete pair of the C2 witness, at the
`getReducedDifflines` level. -/
theorem c3_same_pair_dropped_witness :
    getReducedDifflines (fun _ => FsEntry.dir)
        ["- /v/d".data, "+ /v/d".data] true "/v".data "p@s1".data
        "p@s2".data =
      getReducedDifflines (fun _ => FsEntry.dir) [] true "/v".data
        "p@s1".data "p@s2".data := by
  have hm : pySplit "/v".data "- /v/d".data = ["- ".data, "/d".data] :=
    pySplit_two _ _ _ _ (by decide) 2 (by decide) (by decide) (by decide)
      (by decide)
  have hp : pySplit "/v".data "+ /v/d".data = ["+ ".data, "/d".data] :=
    pySplit_two _ _ _ _ (by decide) 2 (by decide) (by decide) (by decide)
      (by decide)
  exact c3_same_pair_dropped (fun _ => FsEntry.dir) true "/v".data
    "p@s1".data "p@s2".data "- /v/d".data "+ /v/d".data "/d".data []
    (Or.inl ⟨by decide, by decide⟩) (by rw [hm]; rfl) (by rw [hp]; rfl)

/-!  ## Claim C1 -/

/-- A SHA-1 hex digest has 40 characters. -/
theorem sha1hex_length (m : List Nat) : (sha1hex m).length = 40 := by
  unfold sha1hex
  simp [hex8]

/-- Directories and missing paths hash to the empty sentinel. -/
theorem getHash_sentinel (fs : Str → FsEntry) (p : Str)
    (h : fs p = FsEntry.dir ∨ fs p = FsEntry.missing) : getHash fs p = [] := by
  rcases h with h | h <;> unfold getHash <;> rw [h]

/-- Files hash to their digest. -/
theorem getHash_file (fs : Str → FsEntry) (p : Str) (c : List Nat)
    (h : fs p = FsEntry.file c) : getHash fs p = sha1hex c := by
  unfold getHash
  rw [h]

/-- C1 counterexample: a Modified record whose path is a directory in
both snapshots.  The claim says the sentinel fingerprint never equals
another fingerprint, so the record is always retained; the code's two
sentinels are both the empty string, they compare equal, and the record
is dropped — the output is empty. -/
theorem c1_sentinel_counterexample :
    getReducedDifflines (fun _ => FsEntry.dir) ["M /v/d".data] true "/v".data
      "p@s1".data "p@s2".data = some [] := by
  have hsA : pySplit "@".data "p@s1".data = ["p".data, "s1".data] :=
    pySplit_two _ _ _ _ (by decide) 1 (by decide) (by decide) (by decide)
      (by decide)
  have hsB : pySplit "@".data "p@s2".data = ["p".data, "s2".data] :=
    pySplit_two _ _ _ _ (by decide) 1 (by decide) (by decide) (by decide)
      (by decide)
  have h1 : (pySplit "@".data "p@s1".data)[1]? = some "s1".data := by
    rw [hsA]
    rfl
  have h2 : (pySplit "@".data "p@s2".data)[1]? = some "s2".data := by
    rw [hsB]
    rfl
  have hm : pySplit "/v".data "M /v/d".data = ["M ".data, "/d".data] :=
    pySplit_two _ _ _ _ (by decide) 2 (by decide) (by decide) (by decide)
      (by decide)
  have hidx : (pySplit "/v".data "M /v/d".data)[1]? = some "/d".data := by
    rw [hm]
    rfl
  unfold getReducedDifflines
  rw [h1, h2]
  dsimp only
  rw [reduceLoop, if_pos (by decide), hidx]
  rfl

/-- C1 (amended): the fingerprint of a directory or missing path is the
empty-string sentinel, which never equals the fingerprint of a regular
file (a 40-character digest), so a Modified record whose path has
content on exactly one side is always retained; but two sentinels are
equal, so a Modified record whose path is a directory or missing on both
sides is dropped as a no-op, and an adjacent same-path Deleted/Created
pair is always dropped outright since both of its fingerprints are
computed from the same path of the older snapshot. -/
theorem c1_sentinel_amended :
    (∀ (fs : Str → FsEntry) (p : Str),
        fs p = FsEntry.dir ∨ fs p = FsEntry.missing → getHash fs p = []) ∧
    (∀ (fs : Str → FsEntry) (p : Str) (c : List Nat), fs p = FsEntry.file c →
        (getHash fs p).length = 40 ∧ getHash fs p ≠ []) ∧
    (∀ (fs : Str → FsEntry) (stripVolumePath : Bool)
        (mountpoint snap1 snap2 line next mfile : Str) (c : List Nat)
        (rest2 tail : List Str),
      (startsWith "M".data line && decide (3 < line.length)) = true →
      (pySplit mountpoint line)[1]? = some mfile →
      (fs (snap1 ++ mfile) = FsEntry.dir ∨
        fs (snap1 ++ mfile) = FsEntry.missing) →
      fs (snap2 ++ mfile) = FsEntry.file c →
      reduceLoop fs stripVolumePath mountpoint snap1 snap2 (next :: rest2) =
        some tail →
      reduceLoop fs stripVolumePath mountpoint snap1 snap2
          (line :: next :: rest2) =
        some (postLine stripVolumePath mountpoint
          (line ++ [' '] ++ [] ++ [' '] ++ sha1hex c) :: tail)) ∧
    (∀ (fs : Str → FsEntry) (stripVolumePath : Bool)
        (mountpoint snap1 snap2 line next mfile : Str) (rest2 : List Str),
      (startsWith "M".data line && decide (3 < line.length)) = true →
      (pySplit mountpoint line)[1]? = some mfile →
      (fs (snap1 ++ mfile) = FsEntry.dir ∨
        fs (snap1 ++ mfile) = FsEntry.missing) →
      (fs (snap2 ++ mfile) = FsEntry.dir ∨
        fs (snap2 ++ mfile) = FsEntry.missing) →
      reduceLoop fs stripVolumePath mountpoint snap1 snap2
          (line :: next :: rest2) =
        reduceLoop fs stripVolumePath mountpoint snap1 snap2
          (next :: rest2)) ∧
    (∀ (fs : Str → FsEntry) (stripVolumePath : Bool)
        (mountpoint snap1 snap2 line next f : Str) (rest2 : List Str),
      ((startsWith "-".data line = true ∧ startsWith "+".data next = true) ∨
        (startsWith "+".data line = true ∧
          startsWith "-".data next = true)) →
      (pySplit mountpoint line)[1]? = some f →
      (pySplit mountpoint next)[1]? = some f →
      reduceLoop fs stripVolumePath mountpoint snap1 snap2
          (line :: next :: rest2) =
        reduceLoop fs stripVolumePath mountpoint snap1 snap2 rest2) := by
  refine ⟨getHash_sentinel, ?_, ?_, ?_, ?_⟩
  · intro fs p c h
    rw [getHash_file fs p c h]
    refine ⟨sha1hex_length c, ?_⟩
    intro he
    have := sha1hex_length c
    rw [he] at this
    simp at this
  · intro fs strip mp snap1 snap2 line next mfile c rest2 tail hcond hsl h1 h2
      htail
    have g1 : getHash fs (snap1 ++ mfile) = [] := getHash_sentinel _ _ h1
    have g2 : getHash fs (snap2 ++ mfile) = sha1hex c := getHash_file _ _ _ h2
    have hbeq : (getHash fs (snap1 ++ mfile) ==
        getHash fs (snap2 ++ mfile)) = false := by
      rw [g1, g2, beq_eq_false_iff_ne]
      intro he
      have := sha1hex_length c
      rw [← he] at this
      simp at this
    have hcl : classify fs mp snap1 snap2 line next =
        .mRec (line ++ [' '] ++ [] ++ [' '] ++ sha1hex c) false := by
      unfold classify
      rw [if_pos hcond, hsl]
      dsimp only
      rw [hbeq, g1, g2]
    rw [reduceLoop, hcl]
    dsimp only
    rw [htail]
    rfl
  · intro fs strip mp snap1 snap2 line next mfile rest2 hcond hsl h1 h2
    have g1 : getHash fs (snap1 ++ mfile) = [] := getHash_sentinel _ _ h1
    have g2 : getHash fs (snap2 ++ mfile) = [] := getHash_sentinel _ _ h2
    have hcl : classify fs mp snap1 snap2 line next =
        .mRec (line ++ [' '] ++ [] ++ [' '] ++ []) true := by
      unfold classify
      rw [if_pos hcond, hsl]
      dsimp only
      rw [g1, g2]
      rfl
    rw [reduceLoop, hcl]
  · intro fs strip mp snap1 snap2 line next f rest2 hheads hsl hsn
    exact reduceLoop_pair_drop fs strip mp snap1 snap2 line next f rest2
      hheads hsl hsn

/-- C1 witness: concrete sentinel and file fingerprints. -/
theorem c1_sentinel_amended_witness :
    getHash (fun _ => FsEntry.dir) "x".data = [] ∧
    (getHash (fun _ => FsEntry.file []) "x".data).length = 40 ∧
    getHash (fun _ => FsEntry.file []) "x".data ≠ [] :=
  ⟨c1_sentinel_amended.1 _ _ (Or.inl rfl),
   c1_sentinel_amended.2.1 _ _ [] rfl⟩

/-!  ## Claim C4 -/

/-- An octal digit is a digit. -/
theorem isDigitB_of_isOctB (d : Nat) (hd : isOctB d = true) :
    isDigitB d = true := by
  simp only [isOctB, Bool.and_eq_true, decide_eq_true_eq] at hd
  simp only [isDigitB, Bool.and_eq_true, decide_eq_true_eq]
  omega

/-- The scan skips a byte that cannot start an escape. -/
theorem findall_cons_ne (b : Nat) (s : List Nat) (hb : b ≠ 92) :
    findall (b :: s) = findall s := by
  rw [findall.eq_def]
  split
  · next heq =>
    injection heq with hb' hs'
    rw [if_neg (by
      intro hc
      simp only [Bool.and_eq_true, beq_iff_eq] at hc
      exact hb (hb' ▸ hc.1.1.1.1)), hs']
  · next heq =>
    injection heq with _ hs'
    rw [hs']
  · next heq => cases heq

/-- The scan takes a whole escape and continues after it. -/
theorem findall_esc (d1 d2 d3 : Nat) (s : List Nat)
    (h1 : isOctB d1 = true) (h2 : isOctB d2 = true) (h3 : isOctB d3 = true) :
    findall (92 :: 48 :: d1 :: d2 :: d3 :: s) =
      [92, 48, d1, d2, d3] :: findall s := by
  rw [findall.eq_def]
  split
  · next heq =>
    cases heq
    rw [if_pos (by
      rw [isDigitB_of_isOctB d1 h1, isDigitB_of_isOctB d2 h2,
        isDigitB_of_isOctB d3 h3]
      rfl)]
  · next h heq =>
    injection heq with _ hrest
    exact absurd hrest.symm (fun hc => h 48 d1 d2 d3 s hc)
  · next heq => cases heq

/-- On the rendering of a well-formed token sequence, `re.findall` finds
exactly the escape strings, in order. -/
theorem findall_render (ts : List OTok) (hwf : ∀ t ∈ ts, wfTok t = true) :
    findall (render ts) = escRenders ts := by
  induction ts with
  | nil => rfl
  | cons t ts ih =>
    have hwt := hwf t (by simp)
    have hwrest : ∀ u ∈ ts, wfTok u = true := fun u hu => hwf u (by simp [hu])
    cases t with
    | lit b =>
      have hb : b ≠ 92 := by simpa [wfTok] using hwt
      have hr : render (OTok.lit b :: ts) = b :: render ts := by
        simp [render, renderTok]
      rw [hr, findall_cons_ne b _ hb, ih hwrest]
      simp [escRenders]
    | esc d1 d2 d3 =>
      simp only [wfTok, Bool.and_eq_true] at hwt
      have hr : render (OTok.esc d1 d2 d3 :: ts) =
          92 :: 48 :: d1 :: d2 :: d3 :: render ts := by
        simp [render, renderTok]
      rw [hr, findall_esc d1 d2 d3 _ hwt.1.1.1.1 hwt.1.1.1.2 hwt.1.1.2,
        ih hwrest]
      simp [escRenders]

/-- Replacement skips a byte where the pattern does not match. -/
theorem bytesReplace_skip1 (old new : List Nat) (b : Nat) (s : List Nat)
    (h : old.isPrefixOf (b :: s) = false) :
    bytesReplace old new (b :: s) = b :: bytesReplace old new s := by
  rw [bytesReplace]
  rw [if_neg (by rw [h]; simp)]

/-- Replacement consumes the pattern where it matches. -/
theorem bytesReplace_hit (o0 : Nat) (orest new s : List Nat) :
    bytesReplace (o0 :: orest) new ((o0 :: orest) ++ s) =
      new ++ bytesReplace (o0 :: orest) new s := by
  have hpre : (o0 :: orest).isPrefixOf (o0 :: (orest ++ s)) = true :=
    List.isPrefixOf_iff_prefix.mpr (List.prefix_append _ _)
  have hcond : (!(o0 :: orest).isEmpty &&
      (o0 :: orest).isPrefixOf (o0 :: (orest ++ s))) = true := by
    rw [hpre]
    rfl
  show bytesReplace (o0 :: orest) new (o0 :: (orest ++ s)) = _
  rw [bytesReplace, if_pos hcond,
    (show List.drop (o0 :: orest).length (o0 :: (orest ++ s)) = s from
      List.drop_left _ _)]

/-- Replacement passes over a run of bytes that are not the pattern's
first byte. -/
theorem bytesReplace_skip_run (tail new : List Nat) :
    ∀ (pre s : List Nat), (∀ b ∈ pre, b ≠ 92) →
    bytesReplace (92 :: tail) new (pre ++ s) =
      pre ++ bytesReplace (92 :: tail) new s := by
  intro pre
  induction pre with
  | nil => intro s _; simp
  | cons b pre' ih =>
    intro s hpre
    have hb : b ≠ 92 := hpre b (by simp)
    have hfalse : (92 :: tail).isPrefixOf (b :: (pre' ++ s)) = false := by
      cases hc : (92 :: tail).isPrefixOf (b :: (pre' ++ s)) with
      | false => rfl
      | true =>
        have := (List.cons_prefix_cons.mp (List.isPrefixOf_iff_prefix.mp hc)).1
        exact absurd this.symm hb
    rw [show (b :: pre') ++ s = b :: (pre' ++ s) from rfl,
      bytesReplace_skip1 _ _ _ _ hfalse,
      ih s (fun x hx => hpre x (by simp [hx]))]
    rfl

/-- Parsing three octal digit bytes yields the escape's value. -/
theorem octParse_digits (d1 d2 d3 : Nat) (h1 : isOctB d1 = true)
    (h2 : isOctB d2 = true) (h3 : isOctB d3 = true) :
    octParse [d1, d2, d3] = some (escVal d1 d2 d3) := by
  simp only [isOctB, Bool.and_eq_true, decide_eq_true_eq] at h1 h2 h3
  show octParse.go [d1, d2, d3] 0 = some (escVal d1 d2 d3)
  unfold octParse.go
  rw [if_pos (by simp [h1.1, h1.2])]
  unfold octParse.go
  rw [if_pos (by simp [h2.1, h2.2])]
  unfold octParse.go
  rw [if_pos (by simp [h3.1, h3.2])]
  unfold octParse.go
  simp only [Option.some.injEq, escVal]
  omega

/-- Stripping `\0` from an escape string leaves the three digits. -/
theorem bytesReplace_strip_esc (d1 d2 d3 : Nat) (h1 : isOctB d1 = true)
    (h2 : isOctB d2 = true) (h3 : isOctB d3 = true) :
    bytesReplace [92, 48] [] [92, 48, d1, d2, d3] = [d1, d2, d3] := by
  have hne : ∀ d : Nat, isOctB d = true → d ≠ 92 := by
    intro d hd
    simp only [isOctB, Bool.and_eq_true, decide_eq_true_eq] at hd
    omega
  rw [show ([92, 48, d1, d2, d3] : List Nat) =
      (92 :: [48]) ++ [d1, d2, d3] from rfl,
    bytesReplace_hit, List.nil_append,
    show ([d1, d2, d3] : List Nat) = [d1, d2, d3] ++ [] from by simp,
    bytesReplace_skip_run [48] [] [d1, d2, d3] []
      (by
        intro x hx
        simp only [List.mem_cons, List.not_mem_nil, or_false] at hx
        refine hne x ?_
        rcases hx with rfl | rfl | rfl <;> assumption)]
  simp [bytesReplace]

/-- The loop body on an escape string denoting a byte: strip `\0`, parse
the octal digits, replace globally. -/
theorem decodeStep_esc (enc : List Nat) (d1 d2 d3 : Nat)
    (h1 : isOctB d1 = true) (h2 : isOctB d2 = true) (h3 : isOctB d3 = true)
    (hlt : escVal d1 d2 d3 < 256) :
    decodeStep enc [92, 48, d1, d2, d3] =
      some (bytesReplace [92, 48, d1, d2, d3] [escVal d1 d2 d3] enc) := by
  unfold decodeStep
  rw [bytesReplace_strip_esc d1 d2 d3 h1 h2 h3,
    octParse_digits d1 d2 d3 h1 h2 h3]
  show (if escVal d1 d2 d3 < 256 then
      some (bytesReplace [92, 48, d1, d2, d3] [escVal d1 d2 d3] enc)
    else none) = _
  rw [if_pos hlt]

/-- The loop body on an escape whose octal value is not a byte:
`bytes([myint])` raises `ValueError`. -/
theorem decodeStep_overflow (enc : List Nat) (d1 d2 d3 : Nat)
    (h1 : isOctB d1 = true) (h2 : isOctB d2 = true) (h3 : isOctB d3 = true)
    (hge : 256 ≤ escVal d1 d2 d3) :
    decodeStep enc [92, 48, d1, d2, d3] = none := by
  unfold decodeStep
  rw [bytesReplace_strip_esc d1 d2 d3 h1 h2 h3,
    octParse_digits d1 d2 d3 h1 h2 h3]
  show (if escVal d1 d2 d3 < 256 then
      some (bytesReplace [92, 48, d1, d2, d3] [escVal d1 d2 d3] enc)
    else none) = none
  rw [if_neg (by omega)]

theorem renderP_cons (P : List (List Nat)) (t : OTok) (ts : List OTok) :
    renderP P (t :: ts) = renderTokP P t ++ renderP P ts := by
  simp [renderP]

theorem render_cons (t : OTok) (ts : List OTok) :
    render (t :: ts) = renderTok t ++ render ts := by
  simp [render]

/-- With nothing replaced yet, the partial rendering is the raw blob. -/
theorem renderP_nil (ts : List OTok) : renderP [] ts = render ts := by
  induction ts with
  | nil => rfl
  | cons t ts ih =>
    rw [renderP_cons, render_cons, ih]
    cases t with
    | lit b => rfl
    | esc d1 d2 d3 => simp [renderTokP, renderTok]

/-- The partial rendering only depends on which escape strings are in
the processed set. -/
theorem renderP_ext (P Q : List (List Nat)) (h : ∀ x, x ∈ P ↔ x ∈ Q) :
    ∀ ts : List OTok, renderP P ts = renderP Q ts := by
  intro ts
  induction ts with
  | nil => rfl
  | cons t ts ih =>
    rw [renderP_cons, renderP_cons, ih]
    congr 1
    cases t with
    | lit b => rfl
    | esc d1 d2 d3 =>
      simp only [renderTokP]
      by_cases hm : [92, 48, d1, d2, d3] ∈ P
      · rw [if_pos hm, if_pos ((h _).mp hm)]
      · rw [if_neg hm, if_neg (fun hq => hm ((h _).mpr hq))]

/-- Five-byte escape prefix test, componentwise. -/
theorem escPrefix_iff (a1 a2 a3 d1 d2 d3 : Nat) (rest : List Nat) :
    ([92, 48, a1, a2, a3] : List Nat).isPrefixOf
      (92 :: 48 :: d1 :: d2 :: d3 :: rest) = true ↔
    (a1 = d1 ∧ a2 = d2 ∧ a3 = d3) := by
  rw [List.isPrefixOf_iff_prefix]
  constructor
  · intro h
    have h1 := List.cons_prefix_cons.mp h
    have h2 := List.cons_prefix_cons.mp h1.2
    have h3 := List.cons_prefix_cons.mp h2.2
    have h4 := List.cons_prefix_cons.mp h3.2
    have h5 := List.cons_prefix_cons.mp h4.2
    exact ⟨h3.1, h4.1, h5.1⟩
  · rintro ⟨rfl, rfl, rfl⟩
    exact List.prefix_append _ _

/-- Replacing one escape string in a partial rendering marks exactly that
escape as processed. -/
theorem replace_renderP (a1 a2 a3 : Nat) (ha1 : isOctB a1 = true)
    (ha2 : isOctB a2 = true) (ha3 : isOctB a3 = true)
    (hav : escVal a1 a2 a3 ≠ 92) :
    ∀ (ts : List OTok), (∀ t ∈ ts, wfTok t = true) →
    ∀ (P : List (List Nat)),
    bytesReplace [92, 48, a1, a2, a3] [escVal a1 a2 a3] (renderP P ts) =
      renderP ([92, 48, a1, a2, a3] :: P) ts := by
  have hdig : ∀ d : Nat, isOctB d = true → d ≠ 92 := by
    intro d hd
    simp only [isOctB, Bool.and_eq_true, decide_eq_true_eq] at hd
    omega
  intro ts
  induction ts with
  | nil =>
    intro _ P
    show bytesReplace [92, 48, a1, a2, a3] [escVal a1 a2 a3] [] = []
    rw [bytesReplace]
  | cons t ts ih =>
    intro hwf P
    have hwt := hwf t (by simp)
    have hwts : ∀ u ∈ ts, wfTok u = true := fun u hu => hwf u (by simp [hu])
    rw [renderP_cons, renderP_cons]
    cases t with
    | lit b =>
      have hb : b ≠ 92 := by
        simpa [wfTok] using hwt
      rw [show renderTokP P (.lit b) = [b] from rfl,
        show renderTokP ([92, 48, a1, a2, a3] :: P) (.lit b) = [b] from rfl,
        bytesReplace_skip_run [48, a1, a2, a3] [escVal a1 a2 a3] [b] _
          (by
            intro x hx
            simp only [List.mem_cons, List.not_mem_nil, or_false] at hx
            subst hx
            exact hb),
        ih hwts P]
    | esc d1 d2 d3 =>
      simp only [wfTok, Bool.and_eq_true] at hwt
      have hd1 := hwt.1.1.1.1
      have hd2 := hwt.1.1.1.2
      have hd3 := hwt.1.1.2
      have hvne : escVal d1 d2 d3 ≠ 92 := bne_iff_ne.mp hwt.1.2
      by_cases hmem : ([92, 48, d1, d2, d3] : List Nat) ∈ P
      · rw [show renderTokP P (.esc d1 d2 d3) = [escVal d1 d2 d3] from by
            simp [renderTokP, hmem],
          show renderTokP ([92, 48, a1, a2, a3] :: P) (.esc d1 d2 d3) =
              [escVal d1 d2 d3] from by
            simp [renderTokP, List.mem_cons, hmem],
          bytesReplace_skip_run [48, a1, a2, a3] [escVal a1 a2 a3]
            [escVal d1 d2 d3] _
            (by
              intro x hx
              simp only [List.mem_cons, List.not_mem_nil, or_false] at hx
              subst hx
              exact hvne),
          ih hwts P]
      · by_cases heqa : ([92, 48, d1, d2, d3] : List Nat) =
            [92, 48, a1, a2, a3]
        · obtain ⟨rfl, rfl, rfl⟩ : d1 = a1 ∧ d2 = a2 ∧ d3 = a3 := by
            simpa using heqa
          rw [show renderTokP P (.esc d1 d2 d3) = [92, 48, d1, d2, d3] from by
              simp [renderTokP, hmem],
            show renderTokP ([92, 48, d1, d2, d3] :: P) (.esc d1 d2 d3) =
                [escVal d1 d2 d3] from by simp [renderTokP],
            show ([92, 48, d1, d2, d3] ++ renderP P ts : List Nat) =
                (92 :: [48, d1, d2, d3]) ++ renderP P ts from rfl,
            bytesReplace_hit, ih hwts P]
        · rw [show renderTokP P (.esc d1 d2 d3) = [92, 48, d1, d2, d3] from by
              simp [renderTokP, hmem],
            show renderTokP ([92, 48, a1, a2, a3] :: P) (.esc d1 d2 d3) =
                [92, 48, d1, d2, d3] from by
              simp [renderTokP, List.mem_cons, hmem, heqa]]
          have hpf : ([92, 48, a1, a2, a3] : List Nat).isPrefixOf
              (92 :: 48 :: d1 :: d2 :: d3 :: renderP P ts) = false := by
            cases hc : ([92, 48, a1, a2, a3] : List Nat).isPrefixOf
                (92 :: 48 :: d1 :: d2 :: d3 :: renderP P ts) with
            | false => rfl
            | true =>
              obtain ⟨rfl, rfl, rfl⟩ := (escPrefix_iff _ _ _ _ _ _ _).mp hc
              exact absurd rfl heqa
          rw [show ([92, 48, d1, d2, d3] ++ renderP P ts : List Nat) =
              92 :: (48 :: d1 :: d2 :: d3 :: renderP P ts) from rfl,
            bytesReplace_skip1 _ _ _ _ hpf,
            show (48 :: d1 :: d2 :: d3 :: renderP P ts : List Nat) =
              [48, d1, d2, d3] ++ renderP P ts from rfl,
            bytesReplace_skip_run [48, a1, a2, a3] [escVal a1 a2 a3]
              [48, d1, d2, d3] _
              (by
                intro x hx
                simp only [List.mem_cons, List.not_mem_nil, or_false] at hx
                rcases hx with rfl | hx
                · omega
                · exact hdig x (by rcases hx with rfl | rfl | rfl <;>
                    assumption)),
            ih hwts P]
          rfl

/-- Folding the replacement loop over escape strings processes them into
the partial rendering. -/
theorem foldlM_decode (ts : List OTok) (hwf : ∀ t ∈ ts, wfTok t = true) :
    ∀ (ms : List (List Nat)) (P : List (List Nat)),
    (∀ m ∈ ms, ∃ d1 d2 d3, m = [92, 48, d1, d2, d3] ∧ isOctB d1 = true ∧
      isOctB d2 = true ∧ isOctB d3 = true ∧ escVal d1 d2 d3 ≠ 92 ∧
      escVal d1 d2 d3 < 256) →
    List.foldlM decodeStep (renderP P ts) ms =
      some (renderP (ms ++ P) ts) := by
  intro ms
  induction ms with
  | nil =>
    intro P _
    simp
  | cons m ms' ih =>
    intro P hms
    obtain ⟨d1, d2, d3, rfl, h1, h2, h3, hv, hlt⟩ := hms m (by simp)
    rw [List.foldlM_cons, decodeStep_esc _ d1 d2 d3 h1 h2 h3 hlt,
      replace_renderP d1 d2 d3 h1 h2 h3 hv ts hwf P]
    show List.foldlM decodeStep (renderP ([92, 48, d1, d2, d3] :: P) ts)
        ms' = _
    rw [ih ([92, 48, d1, d2, d3] :: P) (fun x hx => hms x (by simp [hx]))]
    congr 1
    apply renderP_ext
    intro x
    simp only [List.mem_append, List.mem_cons]
    tauto

/-- Once every escape is processed, the rendering is the byte sequence
the tokens denote. -/
theorem renderP_full (ts : List OTok) (Q : List (List Nat))
    (h : ∀ m ∈ escRenders ts, m ∈ Q) :
    renderP Q ts = ts.map tokByte := by
  induction ts with
  | nil => rfl
  | cons t ts ih =>
    rw [renderP_cons, List.map_cons,
      ih (fun m hm => h m (by
        cases t <;> simp [escRenders] at hm ⊢ <;> simp [hm]))]
    cases t with
    | lit b => rfl
    | esc d1 d2 d3 =>
      have hm : ([92, 48, d1, d2, d3] : List Nat) ∈ Q :=
        h _ (by simp [escRenders])
      simp [renderTokP, hm, tokByte]

/-- `decode_octal` on the rendering of a well-formed token sequence
decodes every escape to the byte its octal digits denote. -/
theorem decode_octal_render (ts : List OTok)
    (hwf : ∀ t ∈ ts, wfTok t = true) :
    decode_octal (render ts) = some (ts.map tokByte) := by
  have hms : ∀ m ∈ escRenders ts, ∃ d1 d2 d3,
      m = [92, 48, d1, d2, d3] ∧ isOctB d1 = true ∧ isOctB d2 = true ∧
        isOctB d3 = true ∧ escVal d1 d2 d3 ≠ 92 ∧
        escVal d1 d2 d3 < 256 := by
    intro m hm
    rw [escRenders, List.mem_filterMap] at hm
    obtain ⟨t, ht, hmt⟩ := hm
    cases t with
    | lit b => cases hmt
    | esc d1 d2 d3 =>
      have hwt := hwf _ ht
      simp only [wfTok, Bool.and_eq_true, decide_eq_true_eq] at hwt
      injection hmt with hmt'
      exact ⟨d1, d2, d3, hmt'.symm, hwt.1.1.1.1, hwt.1.1.1.2, hwt.1.1.2,
        bne_iff_ne.mp hwt.1.2, hwt.2⟩
  unfold decode_octal
  rw [findall_render ts hwf,
    show render ts = renderP [] ts from (renderP_nil ts).symm,
    foldlM_decode ts hwf (escRenders ts) [] hms,
    renderP_full ts (escRenders ts ++ []) (fun m hm => by simp [hm])]

/-- C4 counterexample: the four-byte blob `\101` is a backslash-escaped
three-digit octal sequence denoting the single byte 0o101 = 65, so by
the claim it is decoded; the code's pattern demands a literal `0` after
the backslash (`\0NNN`) and leaves the blob unchanged. -/
theorem c4_octal_escape_counterexample :
    decode_octal [92, 49, 48, 49] = some [92, 49, 48, 49] ∧
    some ([92, 49, 48, 49] : List Nat) ≠ some [65] :=
  ⟨by decide, by decide⟩

/-- C4 (amended): normalization decodes every escape of the form
`\0NNN` — a backslash, a literal `0`, then three octal digits read as one
octal number denoting a single byte — into that byte, globally across
the blob (stated over blobs in general position: every backslash starts
such an escape, no escape denotes the backslash byte, and every escape
value fits a byte), and this byte-level decoding happens before the blob
is decoded as UTF-8 text, so multi-byte UTF-8 characters split across
consecutive escapes are reassembled correctly.  An escape whose octal
value exceeds 255 (`\0400`-`\0777`) is not decoded: `bytes([myint])`
raises `ValueError` and decoding fails. -/
theorem c4_octal_escape_amended :
    (∀ ts : List OTok, (∀ t ∈ ts, wfTok t = true) →
        decode_octal (render ts) = some (ts.map tokByte)) ∧
    (∀ d1 d2 d3 : Nat, isOctB d1 = true → isOctB d2 = true →
        isOctB d3 = true → 256 ≤ escVal d1 d2 d3 →
        decode_octal [92, 48, d1, d2, d3] = none) ∧
    (∀ stdout : List Nat,
        getSortedDiffLines stdout =
          (decode_octal stdout).bind (fun decoded =>
            (utf8Decode decoded).bind (fun text =>
              (keyedLines (pySplitlines text)).bind (fun keyed =>
                some ((pySortPairs keyed).map (fun p => p.2)))))) := by
  refine ⟨decode_octal_render, ?_, fun _ => rfl⟩
  intro d1 d2 d3 h1 h2 h3 hge
  unfold decode_octal
  rw [show ([92, 48, d1, d2, d3] : List Nat) =
      92 :: 48 :: d1 :: d2 :: d3 :: [] from rfl,
    findall_esc d1 d2 d3 [] h1 h2 h3, List.foldlM_cons,
    decodeStep_overflow _ d1 d2 d3 h1 h2 h3 hge]
  rfl

/-- C4 witness: the blob `M`, tab, `\0303\0244` decodes to the bytes
`[77, 9, 195, 164]`, whose tail is the two-byte UTF-8 encoding of `ä`
reassembled from two consecutive escapes; the blob `\0777`, whose octal
value 511 is not a byte, fails to decode. -/
theorem c4_octal_escape_amended_witness :
    decode_octal
        (render [OTok.lit 77, OTok.lit 9, OTok.esc 51 48 51,
          OTok.esc 50 52 52]) =
      some [77, 9, 195, 164] ∧
    utf8Decode [77, 9, 195, 164] = some ['M', '\t', 'ä'] ∧
    decode_octal [92, 48, 55, 55, 55] = none := by
  refine ⟨?_, by decide, ?_⟩
  · rw [c4_octal_escape_amended.1
      [OTok.lit 77, OTok.lit 9, OTok.esc 51 48 51, OTok.esc 50 52 52]
      (by decide)]
    decide
  · exact c4_octal_escape_amended.2.1 55 55 55 (by decide) (by decide)
      (by decide) (by decide)

end ZfsDiff
